import Mathlib

/-!
A verification development for the gscan directory scanner
(`src/main.go`, the depth-bounded variant with `maxDepth` and folder
flags).  The Go program is shallowly embedded: file paths are lists of
path components (the Go code builds clean `/`-joined paths via
`filepath.Join` and takes `filepath.Dir` / base names, which on clean
component paths are `List.dropLast` / the last component), file contents
are lists of unicode code points (Go ranges over runes of a UTF-8
string), Go maps are association lists with key-overwrite update, and
`float64` percentage arithmetic is carried out in exact rational
arithmetic (`Rat`); the division in `analyzeFiles` only ever happens
with a positive denominator, where `Rat` and `float64` agree up to
rounding.
-/

namespace GScan

/-- Source constant `maxFileSize = 1024 * 1024 * 10` (10 MiB). -/
def maxFileSize : Nat := 1024 * 1024 * 10

/-- Source constant `maxDepth = 3`, the maximum depth of directory
traversal. -/
def maxDepth : Nat := 3

/-- Go `strings.HasPrefix s pat` on rune lists: `pat` is a prefix of `s`. -/
def hasPrefixList : List Char → List Char → Bool
  | _, [] => true
  | [], _ :: _ => false
  | c :: s, p :: ps => c == p && hasPrefixList s ps

/-- Go `strings.Contains s pat`: some suffix of `s` starts with `pat`.
For the ASCII patterns used by the scanner, byte-level containment on
UTF-8 strings coincides with rune-level containment, because bytes below
0x80 occur in UTF-8 only as standalone ASCII runes. -/
def containsList : List Char → List Char → Bool
  | [], pat => pat.isEmpty
  | c :: rest, pat => hasPrefixList (c :: rest) pat || containsList rest pat

/-- The code-point ranges of the Han script, as tabulated in Go's
`unicode.Scripts` (`unicode.Is(unicode.Scripts["Han"], r)`). -/
def hanRanges : List (Nat × Nat) :=
  [(0x2e80, 0x2e99), (0x2e9b, 0x2ef3), (0x2f00, 0x2fd5),
   (0x3005, 0x3005), (0x3007, 0x3007), (0x3021, 0x3029),
   (0x3038, 0x303b), (0x3400, 0x4dbf), (0x4e00, 0x9fff),
   (0xf900, 0xfa6d), (0xfa70, 0xfad9),
   (0x20000, 0x2a6df), (0x2a700, 0x2b739), (0x2b740, 0x2b81d),
   (0x2b820, 0x2cea1), (0x2ceb0, 0x2ebe0), (0x2f800, 0x2fa1d),
   (0x30000, 0x3134a), (0x31350, 0x323af)]

/-- Membership of one code point in the Han script table. -/
def isHan (c : Char) : Bool :=
  hanRanges.any fun r => decide (r.1 ≤ c.toNat) && decide (c.toNat ≤ r.2)

/-- Source `containsChinese`: scan the runes of `s`, returning `true` at
the first rune in the Han script (short-circuit), `false` if none. -/
def containsChinese : List Char → Bool
  | [] => false
  | c :: rest => if isHan c then true else containsChinese rest

/-- Source `checkFlags(content)`: build the flag list in fixed order,
appending "Nezha was detected" when the content contains the literal
substring "nezha" and "Contains Chinese characters" when some rune is in
the Han script. -/
def checkFlags (content : List Char) : List String :=
  let flags : List String := []
  let flags :=
    if containsList content ("nezha".toList) then
      flags ++ ["Nezha was detected"]
    else flags
  let flags :=
    if containsChinese content then
      flags ++ ["Contains Chinese characters"]
    else flags
  flags

/-- The byte length of the UTF-8 encoding of a rune list: models
`fi.Size()` of a regular file whose content decodes to these runes. -/
def utf8Len (content : List Char) : Nat :=
  content.foldl (fun n c => n + c.utf8Size) 0

/-- Source `readFileWithLimit(path, limit)`, evaluated against the
file's attributes: fails when `os.Open` fails, then when `file.Stat`
fails, then when the stat size exceeds `limit`; otherwise
`ioutil.ReadAll` returns the file's complete content. -/
def readFileWithLimit (openOk statOk : Bool) (content : List Char)
    (limit : Nat) : Except Unit (List Char) :=
  if !openOk then .error ()
  else if !statOk then .error ()
  else if utf8Len content > limit then .error ()
  else .ok content

/-- Source `filepath.Ext` applied to a path whose final element is this
name: the suffix beginning at the final dot, empty if the name has no
dot. -/
def extFrom : List Char → List Char
  | [] => []
  | c :: rest =>
    let e := extFrom rest
    if e.isEmpty then (if c == '.' then c :: rest else []) else e

/-- `filepath.Ext` as a function on the base name, as a `String`. -/
def goExt (name : String) : String :=
  String.mk (extFrom name.toList)

/-- The directory-exclusion test from the walk callback, applied to
`info.Name()` (the base name): literally
`name == "node_modules" || HasPrefix(name, "node_modules"+PathSeparator)
|| HasPrefix(name, ".") || HasPrefix(name, "/assets/")`
with `os.PathSeparator = '/'`. -/
def excludedDir (name : String) : Bool :=
  name == "node_modules"
  || hasPrefixList name.toList ("node_modules/".toList)
  || hasPrefixList name.toList (".".toList)
  || hasPrefixList name.toList ("/assets/".toList)

mutual
/-- A filesystem node: a regular file (with content and flags saying
whether `os.Open` and `file.Stat` would succeed on it), a directory with
children (listed in the sorted order `filepath.Walk` visits them), or an
entry whose visit hands the walk callback an error. -/
inductive FSNode where
  | file (name : String) (content : List Char) (openOk statOk : Bool)
  | dir (name : String) (children : FSList)
  | errEntry (name : String)
/-- A sibling list of filesystem nodes (mutual with `FSNode` so that the
traversal is structurally recursive). -/
inductive FSList where
  | nil
  | cons (hd : FSNode) (tl : FSList)
end

/-- Build an `FSList` from a `List` of nodes. -/
def fsL : List FSNode → FSList
  | [] => .nil
  | n :: rest => .cons n (fsL rest)

/-- The base name of a node. -/
def nodeName : FSNode → String
  | .file n _ _ _ => n
  | .dir n _ => n
  | .errEntry n => n

/-- The mutable state accumulated by the walk callback of
`analyzeFiles`: `languageCounts`, `totalFiles`, `fileFlags`,
`folderFlags`.  Go maps become association lists. -/
structure WalkSt where
  languageCounts : List (String × Nat)
  totalFiles : Nat
  fileFlags : List (List String × List String)
  folderFlags : List (List String)
deriving DecidableEq, Repr

/-- The empty walk state the callback starts from. -/
def emptyWalkSt : WalkSt := ⟨[], 0, [], []⟩

/-- `languageCounts[ext]++`: increment the count at a key, inserting it
at 1 when absent. -/
def incrCount : List (String × Nat) → String → List (String × Nat)
  | [], k => [(k, 1)]
  | (k', v) :: rest, k =>
    if k' == k then (k', v + 1) :: rest else (k', v) :: incrCount rest k

/-- `m[key] = value` on an association list: overwrite, or append when
the key is absent. -/
def setKey : List (List String × List String) → List String →
    List String → List (List String × List String)
  | [], k, v => [(k, v)]
  | (k', v') :: rest, k, v =>
    if k' == k then (k', v) :: rest else (k', v') :: setKey rest k v

/-- `folderFlags[path] = true` on a set represented as a duplicate-free
list. -/
def addFolder (s : List (List String)) (p : List String) :
    List (List String) :=
  if p ∈ s then s else s ++ [p]

/-- The walk callback's file branch: take the extension of the path; for
`.js`/`.py` read with the size cap — on a read error print a warning and
return from the callback before any counting; otherwise record
`checkFlags` of the content under the file's path when nonempty — then
(in the cases that reach it) tally the extension and the file total. -/
def visitFile (parent : List String) (name : String) (content : List Char)
    (openOk statOk : Bool) (st : WalkSt) : WalkSt :=
  let path := parent ++ [name]
  let ext := goExt name
  if ext == ".js" || ext == ".py" then
    match readFileWithLimit openOk statOk content maxFileSize with
    | .error _ => st
    | .ok c =>
      let flags := checkFlags c
      let st :=
        if flags.isEmpty then st
        else { st with fileFlags := setKey st.fileFlags path flags }
      { st with languageCounts := incrCount st.languageCounts ext,
                totalFiles := st.totalFiles + 1 }
  else
    { st with languageCounts := incrCount st.languageCounts ext,
              totalFiles := st.totalFiles + 1 }

mutual
/-- The `filepath.Walk` callback visit of one node below `parent`,
threading the callback state: an entry error aborts the whole walk (the
callback returns the error), an excluded directory is recorded in
`folderFlags` and skipped with its entire subtree (`filepath.SkipDir`),
any other directory is descended into, and a file is handed to
`visitFile`. -/
def walkNode : List String → FSNode → WalkSt → Except Unit WalkSt
  | _, .errEntry _, _ => .error ()
  | parent, .file name content openOk statOk, st =>
    .ok (visitFile parent name content openOk statOk st)
  | parent, .dir name children, st =>
    if excludedDir name then
      .ok { st with folderFlags := addFolder st.folderFlags (parent ++ [name]) }
    else
      walkFold (parent ++ [name]) children st
/-- The traversal of a sibling list, left to right, stopping at the
first error. -/
def walkFold : List String → FSList → WalkSt → Except Unit WalkSt
  | _, .nil, st => .ok st
  | parent, .cons n rest, st =>
    match walkNode parent n st with
    | .error e => .error e
    | .ok st' => walkFold parent rest st'
end

/-- The first sibling with a given base name, as Go's directory lookup
finds it. -/
def findIn : FSList → String → Option FSNode
  | .nil, _ => none
  | .cons n rest, c => if nodeName n == c then some n else findIn rest c

/-- Resolve an absolute component path to the node it names, descending
through directories. -/
def findNode : FSList → List String → Option FSNode
  | _, [] => none
  | nodes, [c] => findIn nodes c
  | nodes, c :: rest =>
    match findIn nodes c with
    | some (.dir _ children) => findNode children rest
    | _ => none

/-- `filepath.Walk(dirPath, callback)` from the empty state: resolving
the root fails (the callback receives the `lstat` error and returns it),
or the rooted subtree is walked. -/
def walkPath (fs : FSList) (dirPath : List String) :
    Except Unit WalkSt :=
  match findNode fs dirPath with
  | none => .error ()
  | some node => walkNode dirPath.dropLast node emptyWalkSt

/-- The percentage loop of `analyzeFiles`:
`percentage := float64(count) / float64(totalFiles) * 100.0` for each
tallied extension, in exact rational arithmetic. -/
def computePercentages (counts : List (String × Nat)) (total : Nat) :
    List (String × Rat) :=
  counts.map fun p => (p.1, (p.2 : Rat) / (total : Rat) * 100)

/-- The triple `analyzeFiles` returns: `languagePercentages`,
`fileFlags`, `folderFlags`. -/
structure AnalyzeResult where
  languagePercentages : List (String × Rat)
  fileFlags : List (List String × List String)
  folderFlags : List (List String)
deriving DecidableEq, Repr

/-- The `nil, nil, nil` result returned at the depth guard and on a walk
error. -/
def emptyResult : AnalyzeResult := ⟨[], [], []⟩

/-- `languagePercentages[ext] += percentage` for one entry: add at the
key, reading an absent key as 0 (Go's zero value). -/
def addPercent : List (String × Rat) → String → Rat → List (String × Rat)
  | [], k, v => [(k, v)]
  | (k', v') :: rest, k, v =>
    if k' == k then (k', v' + v) :: rest else (k', v') :: addPercent rest k v

/-- Merging a recursive invocation's results into the parent's, exactly
as the three range loops in the merge step do: percentages are summed
per extension (never re-normalized), `fileFlags` is a key-overwrite
union, `folderFlags` a set union. -/
def mergeResult (acc sub : AnalyzeResult) : AnalyzeResult :=
  { languagePercentages :=
      sub.languagePercentages.foldl
        (fun m p => addPercent m p.1 p.2) acc.languagePercentages,
    fileFlags :=
      sub.fileFlags.foldl (fun m p => setKey m p.1 p.2) acc.fileFlags,
    folderFlags :=
      sub.folderFlags.foldl (fun s p => addFolder s p) acc.folderFlags }

/-- The merge step of `analyzeFiles`: for every path in `fileFlags`
whose `filepath.Dir` differs from the walk root, merge the results of
`recur` (the recursive invocation, which the caller instantiates with
`analyzeFiles` at `depth+1`) on that directory. -/
def mergeStep (recur : List String → AnalyzeResult)
    (dirPath : List String) (flags : List (List String × List String))
    (base : AnalyzeResult) : AnalyzeResult :=
  flags.foldl
    (fun acc e =>
      if e.1.dropLast = dirPath then acc
      else mergeResult acc (recur e.1.dropLast)) base

/-- The body of `analyzeFiles` after its depth guard, with the remaining
recursion depth as structural fuel: walk the root (a walk error prints
and returns `nil, nil, nil`), convert the tally to percentages, and run
the merge step, recursing with one unit of fuel fewer (the source
recursion at `depth+1`; `analyzeFiles` shows fuel `maxDepth + 1 - depth`
makes the two agree). -/
def analyzeGo : Nat → FSList → List String → AnalyzeResult
  | 0, _, _ => emptyResult
  | fuel + 1, fs, dirPath =>
    match walkPath fs dirPath with
    | .error _ => emptyResult
    | .ok st =>
      mergeStep (fun sub => analyzeGo fuel fs sub) dirPath st.fileFlags
        ⟨computePercentages st.languageCounts st.totalFiles,
         st.fileFlags, st.folderFlags⟩

/-- Source `analyzeFiles(dirPath, depth)` over the filesystem `fs`:
`if depth > maxDepth { return nil, nil, nil }`, then walk and merge.
The recursion (each re-invocation at `depth+1`) is realised by the fuel
`maxDepth + 1 - depth`, which reaches 0 exactly when `depth` passes
`maxDepth`. -/
def analyzeFiles (fs : FSList) (dirPath : List String)
    (depth : Nat) : AnalyzeResult :=
  if depth > maxDepth then emptyResult
  else analyzeGo (maxDepth + 1 - depth) fs dirPath

/-- The entries of a sibling list, as a plain `List`. -/
def FSList.toList : FSList → List FSNode
  | .nil => []
  | .cons n rest => n :: rest.toList

/-- The body of `main`'s tenant loop over the volume listing: for each
subdirectory volume run `analyzeFiles(volumePath, 1)`, and report the
tenant only when `len(fileFlags) > 0 || len(folderFlags) > 0`. -/
def tenantLoop (fs : FSList) (volumesDir : List String) :
    List FSNode → List (List String)
  | [] => []
  | v :: rest =>
    match v with
    | .dir name _ =>
      let p := volumesDir ++ [name]
      let r := analyzeFiles fs p 1
      if r.fileFlags.isEmpty && r.folderFlags.isEmpty then
        tenantLoop fs volumesDir rest
      else p :: tenantLoop fs volumesDir rest
    | _ => tenantLoop fs volumesDir rest

/-- The tenant enumeration of `main`: list the volumes directory (a
failure reports the error and processes no tenant) and run the tenant
loop; the model returns the paths of the tenants that get a report. -/
def mainModel (fs : FSList) (volumesDir : List String) :
    List (List String) :=
  match findNode fs volumesDir with
  | some (.dir _ children) => tenantLoop fs volumesDir children.toList
  | _ => []

/-- Sum of the counts of an extension tally. -/
def sumCounts (m : List (String × Nat)) : Nat :=
  (m.map Prod.snd).sum

/-- Sum of the values of a percentage map. -/
def sumPercent (m : List (String × Rat)) : Rat :=
  (m.map Prod.snd).sum

/-- The invariant the walk callback maintains on its tally: the counts
sum to `totalFiles`, and a walk that saw no file has an empty tally. -/
def countInv (st : WalkSt) : Prop :=
  sumCounts st.languageCounts = st.totalFiles ∧
    (st.totalFiles = 0 → st.languageCounts = [])

/-- Fixture: a tenant whose `plugins` directory holds one file. -/
def pluginsFS : FSList :=
  fsL [.dir "v" (fsL [.dir "plugins" (fsL [.file "a.txt" [] true true])])]

/-- Fixture: a `node_modules` directory holding a flaggable file. -/
def nodeModulesChild : FSList :=
  fsL [.file "x.js" ("nezha".toList) true true]

/-- Fixture: a tenant whose only file is a `.js` file that cannot be
opened. -/
def openFailFS : FSList :=
  fsL [.dir "v" (fsL [.file "a.js" ("nezha".toList) false true])]

/-- Fixture: a tenant with one `.py` and one flagged `.js` file at its
root (Scenario A of the specification). -/
def twoFileFS : FSList :=
  fsL [.dir "v" (fsL [.file "a.py" ("import os".toList) true true,
                      .file "b.js" ("nezha".toList) true true])]

/-- The walk state `twoFileFS` produces. -/
def twoFileSt : WalkSt :=
  ⟨[(".py", 1), (".js", 1)], 2, [(["v", "b.js"], ["Nezha was detected"])], []⟩

/-- Fixture: a tenant whose flagged file sits in a subdirectory, firing
the merge step's recursive re-walk. -/
def subdirFS : FSList :=
  fsL [.dir "v" (fsL [.dir "sub" (fsL [.file "mal.js" ("nezha".toList) true true])])]

/-- The walk state `subdirFS` produces at the tenant root. -/
def subdirSt : WalkSt :=
  ⟨[(".js", 1)], 1, [(["v", "sub", "mal.js"], ["Nezha was detected"])], []⟩

/-- Fixture: a volumes directory with one tenant whose subtree contains
an entry the traversal fails on. -/
def brokenFS : FSList :=
  fsL [.dir "vols" (fsL [.dir "t1" (fsL [.errEntry "bad"])])]

/-- Fixture: a tenant directory with no entries at all. -/
def emptyTenantFS : FSList :=
  fsL [.dir "v" .nil]

/-- Linking `analyzeGo` fuel to the source's `depth` parameter: with
`depth ≤ maxDepth`, fuel `maxDepth - depth` is the recursive invocation
`analyzeFiles` makes at `depth + 1`. -/
theorem analyzeGo_fuel_eq (fs : FSList) (dirPath : List String)
    (d : Nat) (hd : d ≤ maxDepth) :
    analyzeGo (maxDepth - d) fs dirPath = analyzeFiles fs dirPath (d + 1) := by
  unfold analyzeFiles
  by_cases h : maxDepth < d + 1
  · have h0 : maxDepth - d = 0 := by omega
    rw [h0]
    simp [h, analyzeGo, emptyResult]
  · have h1 : maxDepth + 1 - (d + 1) = maxDepth - d := by omega
    simp [h, h1]

/-- The recurrence `analyzeFiles` satisfies, read off the source: depth
guard, walk (an error yields `nil, nil, nil`), percentage conversion,
then the merge step re-invoking at `depth + 1`. -/
theorem analyzeFiles_rec (fs : FSList) (dirPath : List String)
    (d : Nat) :
    analyzeFiles fs dirPath d =
      if maxDepth < d then emptyResult
      else
        match walkPath fs dirPath with
        | .error _ => emptyResult
        | .ok st =>
          mergeStep (fun sub => analyzeFiles fs sub (d + 1)) dirPath
            st.fileFlags
            ⟨computePercentages st.languageCounts st.totalFiles,
             st.fileFlags, st.folderFlags⟩ := by
  by_cases h : maxDepth < d
  · simp [analyzeFiles, h]
  · have hf : maxDepth + 1 - d = (maxDepth - d) + 1 := by omega
    have hrec : (fun sub => analyzeGo (maxDepth - d) fs sub) =
        fun sub => analyzeFiles fs sub (d + 1) :=
      funext fun sub => analyzeGo_fuel_eq fs sub d (by omega)
    rw [analyzeFiles, if_neg (by omega), hf, analyzeGo, hrec]
    simp [h]

/-- C1: for every filesystem, directory path and depth greater than the
maximum depth 3, `analyzeFiles` returns immediately with empty results —
no percentages, no file flags, no folder flags — and the result does not
depend on the filesystem at all, so nothing is traversed; the recursion
(each merge-step re-invocation at `depth + 1`) is realised by the fuel
`maxDepth + 1 - depth`, which this guard exhausts, so it terminates. -/
theorem depth_guard_empty (fs : FSList) (p : List String) (d : Nat)
    (hd : 3 < d) : analyzeFiles fs p d = emptyResult := by
  have h : maxDepth < d := hd
  simp [analyzeFiles, h]

/-- Witness for `depth_guard_empty` at depth 4 over a filesystem that
does contain tallyable and flaggable files. -/
theorem depth_guard_empty_witness :
    3 < 4 ∧ analyzeFiles twoFileFS ["v"] 4 = emptyResult :=
  ⟨by decide, depth_guard_empty twoFileFS ["v"] 4 (by decide)⟩

/-- C2 fails on the code: the walk callback tests
`name == "node_modules"`, `HasPrefix(name, "node_modules/")`,
`HasPrefix(name, ".")` and `HasPrefix(name, "/assets/")` — never the
names `plugins` or `assets`, nor a `?` prefix.  A directory named
`plugins` with one file inside is therefore descended into: its file is
tallied (a `.txt` percentage entry is produced) and `folderFlags` stays
empty, against the claim that `plugins` is skipped and recorded. -/
theorem plugins_dir_not_excluded :
    (analyzeFiles pluginsFS ["v"] 1).folderFlags = [] ∧
    (analyzeFiles pluginsFS ["v"] 1).languagePercentages.map Prod.fst = [".txt"] := by
  decide

/-- C2 amended: a directory whose base name equals `node_modules`, or
starts with `node_modules/`, `.` or `/assets/` (the `excludedDir` test
of the callback), is skipped together with its entire subtree — the walk
result does not depend on its children, so nothing under it is tallied
or flagged — its path is recorded in `folderFlags`, and the traversal
continues with the remaining entries. -/
theorem excluded_dir_skipped (parent : List String) (name : String)
    (children rest : FSList) (st : WalkSt)
    (h : excludedDir name = true) :
    walkFold parent (.cons (.dir name children) rest) st =
      walkFold parent rest
        { st with folderFlags := addFolder st.folderFlags (parent ++ [name]) } := by
  simp [walkFold, walkNode, h]

/-- Witness for `excluded_dir_skipped`: a `node_modules` directory whose
child would be flagged if it were visited. -/
theorem excluded_dir_skipped_witness :
    excludedDir "node_modules" = true ∧
    walkFold ["v"] (.cons (.dir "node_modules" nodeModulesChild) .nil) emptyWalkSt =
      walkFold ["v"] .nil
        { emptyWalkSt with
            folderFlags := addFolder emptyWalkSt.folderFlags (["v"] ++ ["node_modules"]) } :=
  ⟨by decide,
   excluded_dir_skipped ["v"] "node_modules" nodeModulesChild .nil emptyWalkSt
     (by decide)⟩

/-- C3 fails on the code: when `readFileWithLimit` fails on a `.js` or
`.py` file, the walk callback prints the warning and returns `nil`
*before* the `languageCounts[ext]++` and `totalFiles++` lines, so the
file is not counted.  On a tenant whose only file is a `.js` file whose
open fails, the claim asserts a `.js` tally entry (and a percentage),
but the result is entirely empty. -/
theorem read_error_not_tallied :
    (analyzeFiles openFailFS ["v"] 1).languagePercentages = [] ∧
    (analyzeFiles openFailFS ["v"] 1).fileFlags = [] := by
  decide

/-- C3 amended: a `.js`/`.py` file on which `readFileWithLimit` fails
(open failure, stat failure, or size above the 10 MiB cap) is excluded
from content-flag evaluation — and also from the extension tally and
`totalFiles`, since the callback returns before the counting lines — it
never appears in `fileFlags`, and the condition is non-fatal: the walk
continues with the remaining entries from an unchanged state. -/
theorem read_error_file_skipped (parent : List String) (name : String)
    (content : List Char) (oo so : Bool) (rest : FSList) (st : WalkSt)
    (hext : (goExt name == ".js" || goExt name == ".py") = true)
    (herr : readFileWithLimit oo so content maxFileSize = .error ()) :
    walkFold parent (.cons (.file name content oo so) rest) st =
      walkFold parent rest st := by
  simp [walkFold, walkNode, visitFile, hext, herr]

/-- Witness for `read_error_file_skipped`: an unopenable `.js` file
whose content would otherwise be flagged. -/
theorem read_error_file_skipped_witness :
    (goExt "a.js" == ".js" || goExt "a.js" == ".py") = true ∧
    readFileWithLimit false true ("nezha".toList) maxFileSize = .error () ∧
    walkFold ["v"] (.cons (.file "a.js" ("nezha".toList) false true) .nil) emptyWalkSt =
      walkFold ["v"] .nil emptyWalkSt :=
  ⟨by decide, by rfl,
   read_error_file_skipped ["v"] "a.js" ("nezha".toList) false true .nil
     emptyWalkSt (by decide) (by rfl)⟩

/-- Incrementing a tally entry adds one to the sum of the counts. -/
theorem sumCounts_incrCount (m : List (String × Nat)) (k : String) :
    sumCounts (incrCount m k) = sumCounts m + 1 := by
  induction m with
  | nil => simp [incrCount, sumCounts]
  | cons p rest ih =>
    obtain ⟨k', v⟩ := p
    by_cases h : (k' == k) = true
    · simp [incrCount, h, sumCounts]
      omega
    · simp [incrCount, h, sumCounts] at ih ⊢
      omega

/-- A file visit either leaves the tally and total unchanged (the read
error case) or increments the extension count and the total together. -/
theorem visitFile_counts (parent : List String) (name : String)
    (content : List Char) (oo so : Bool) (st : WalkSt) :
    ((visitFile parent name content oo so st).languageCounts = st.languageCounts ∧
     (visitFile parent name content oo so st).totalFiles = st.totalFiles) ∨
    ((visitFile parent name content oo so st).languageCounts
        = incrCount st.languageCounts (goExt name) ∧
     (visitFile parent name content oo so st).totalFiles = st.totalFiles + 1) := by
  simp only [visitFile]
  split
  · split
    · left; exact ⟨rfl, rfl⟩
    · split
      · right; exact ⟨rfl, rfl⟩
      · right; exact ⟨rfl, rfl⟩
  · right; exact ⟨rfl, rfl⟩

/-- One file visit preserves the tally invariant: either nothing is
counted, or both the extension count and `totalFiles` grow by one. -/
theorem countInv_visitFile (parent : List String) (name : String)
    (content : List Char) (oo so : Bool) (st : WalkSt) (h : countInv st) :
    countInv (visitFile parent name content oo so st) := by
  obtain ⟨h1, h2⟩ := h
  rcases visitFile_counts parent name content oo so st with ⟨hc, ht⟩ | ⟨hc, ht⟩
  · exact ⟨by rw [hc, ht, h1], fun h0 => by rw [hc]; exact h2 (ht ▸ h0)⟩
  · exact ⟨by rw [hc, ht, sumCounts_incrCount, h1],
      fun h0 => absurd (ht ▸ h0) (Nat.succ_ne_zero _)⟩

/-- The whole walk preserves the tally invariant, jointly for node and
sibling-list traversals. -/
theorem countInv_walk :
    (∀ (parent : List String) (n : FSNode) (st : WalkSt), ∀ st',
        walkNode parent n st = .ok st' → countInv st → countInv st') ∧
    (∀ (parent : List String) (l : FSList) (st : WalkSt), ∀ st',
        walkFold parent l st = .ok st' → countInv st → countInv st') := by
  apply walkNode.mutual_induct
    (fun parent n st => ∀ st',
      walkNode parent n st = .ok st' → countInv st → countInv st')
    (fun parent l st => ∀ st',
      walkFold parent l st = .ok st' → countInv st → countInv st')
  · intro x name x1 st' hw
    simp [walkNode] at hw
  · intro parent name content oo so st st' hw h
    simp [walkNode] at hw
    subst hw
    exact countInv_visitFile parent name content oo so st h
  · intro parent name children st hex st' hw h
    simp [walkNode, hex] at hw
    subst hw
    exact ⟨h.1, h.2⟩
  · intro parent name children st hex ih st' hw h
    simp [walkNode, hex] at hw
    exact ih st' hw h
  · intro x st st' hw h
    simp [walkFold] at hw
    subst hw
    exact h
  · intro parent n rest st e hn ih st' hw
    simp [walkFold, hn] at hw
  · intro parent n rest st st1 hn ihn ihrest st' hw h
    simp [walkFold, hn] at hw
    exact ihrest st' hw (ihn st1 hn h)

/-- A successful `walkPath` yields a state satisfying the tally
invariant (the walk starts from the empty state, which satisfies it). -/
theorem countInv_walkPath (fs : FSList) (p : List String) (st : WalkSt)
    (hw : walkPath fs p = .ok st) : countInv st := by
  unfold walkPath at hw
  cases hf : findNode fs p with
  | none => rw [hf] at hw; simp at hw
  | some node =>
    rw [hf] at hw
    exact countInv_walk.1 p.dropLast node emptyWalkSt st hw ⟨rfl, fun _ => rfl⟩

/-- The sum of the percentage values is the sum of the counts divided by
the total, times 100, in exact rational arithmetic. -/
theorem sumPercent_computePercentages (counts : List (String × Nat))
    (t : Nat) :
    sumPercent (computePercentages counts t) =
      (sumCounts counts : Rat) / (t : Rat) * 100 := by
  induction counts with
  | nil => simp [computePercentages, sumPercent, sumCounts]
  | cons p rest ih =>
    simp [computePercentages, sumPercent, sumCounts] at ih ⊢
    rw [ih]
    ring

/-- C4: for every subtree walk that counted `totalFiles > 0` files, the
per-extension percentages computed from that subtree's own tally — each
count divided by the subtree's total, times 100, before any parent-level
merge — sum to exactly 100 in the exact rational arithmetic modelling
the `float64` computation. -/
theorem subtree_percentages_sum_100 (fs : FSList) (p : List String)
    (st : WalkSt) (hw : walkPath fs p = .ok st) (hn : 0 < st.totalFiles) :
    sumPercent (computePercentages st.languageCounts st.totalFiles) = 100 := by
  have hinv := countInv_walkPath fs p st hw
  rw [sumPercent_computePercentages, hinv.1]
  have hne : (st.totalFiles : Rat) ≠ 0 := Nat.cast_ne_zero.mpr (by omega)
  rw [div_self hne, one_mul]

/-- Witness for `subtree_percentages_sum_100`: the two-file tenant whose
walk tallies one `.py` and one `.js` file. -/
theorem subtree_percentages_sum_100_witness :
    walkPath twoFileFS ["v"] = .ok twoFileSt ∧ 0 < twoFileSt.totalFiles ∧
    sumPercent (computePercentages twoFileSt.languageCounts twoFileSt.totalFiles) = 100 :=
  ⟨by rfl, by decide,
   subtree_percentages_sum_100 twoFileFS ["v"] twoFileSt (by rfl) (by decide)⟩

/-- C8: a walk that counted no file produces no percentage entry at all:
with `totalFiles = 0` the tally is empty, so the percentage loop runs
over an empty map and never divides — division by `totalFiles` happens
only for tally entries, which exist only when `totalFiles > 0`. -/
theorem no_percentages_when_no_files (fs : FSList) (p : List String)
    (st : WalkSt) (hw : walkPath fs p = .ok st) (h0 : st.totalFiles = 0) :
    computePercentages st.languageCounts st.totalFiles = [] := by
  have hinv := countInv_walkPath fs p st hw
  rw [hinv.2 h0]
  rfl

/-- Witness for `no_percentages_when_no_files`: a tenant directory with
no entries. -/
theorem no_percentages_when_no_files_witness :
    walkPath emptyTenantFS ["v"] = .ok emptyWalkSt ∧
    emptyWalkSt.totalFiles = 0 ∧
    computePercentages emptyWalkSt.languageCounts emptyWalkSt.totalFiles = [] :=
  ⟨by rfl, by decide,
   no_percentages_when_no_files emptyTenantFS ["v"] emptyWalkSt (by rfl) (by decide)⟩

/-- C5: after the traversal of a root completes at an admissible depth,
`analyzeFiles` is exactly the walk's own result extended by the merge
loop: for every flagged path whose containing directory
(`filepath.Dir`, here `dropLast`) is not the root itself, the walker is
re-invoked on that directory at `depth + 1` and the sub-results merged —
percentages by per-extension addition without re-normalizing
(`mergeResult`), `fileFlags` by key-overwrite union, `folderFlags` by
set union — while a flagged file lying directly in the root contributes
no re-invocation. -/
theorem merge_step_spec (fs : FSList) (p : List String) (d : Nat)
    (st : WalkSt) (hd : d ≤ 3) (hw : walkPath fs p = .ok st) :
    analyzeFiles fs p d =
      st.fileFlags.foldl
        (fun acc e =>
          if e.1.dropLast = p then acc
          else mergeResult acc (analyzeFiles fs e.1.dropLast (d + 1)))
        ⟨computePercentages st.languageCounts st.totalFiles,
         st.fileFlags, st.folderFlags⟩ := by
  rw [analyzeFiles_rec, if_neg (by simp [maxDepth]; omega), hw]
  rfl

/-- Witness for `merge_step_spec`: the tenant whose flagged file lives
in the subdirectory `sub`, so the merge loop re-invokes the walker on
`["v", "sub"]` at depth 2. -/
theorem merge_step_spec_witness :
    (1 : Nat) ≤ 3 ∧ walkPath subdirFS ["v"] = .ok subdirSt ∧
    analyzeFiles subdirFS ["v"] 1 =
      subdirSt.fileFlags.foldl
        (fun acc e =>
          if e.1.dropLast = ["v"] then acc
          else mergeResult acc (analyzeFiles subdirFS e.1.dropLast (1 + 1)))
        ⟨computePercentages subdirSt.languageCounts subdirSt.totalFiles,
         subdirSt.fileFlags, subdirSt.folderFlags⟩ :=
  ⟨by decide, by rfl,
   merge_step_spec subdirFS ["v"] 1 subdirSt (by decide) (by rfl)⟩

/-- Scanning for Han runes agrees with `List.any`: some rune of the
content lies in the Han script. -/
theorem containsChinese_eq_any (l : List Char) :
    containsChinese l = l.any isHan := by
  induction l with
  | nil => rfl
  | cons c rest ih =>
    by_cases h : isHan c = true
    · simp [containsChinese, h]
    · simp [containsChinese, h, ih]

/-- A successful limited read returns the complete content. -/
theorem readFileWithLimit_ok_eq (oo so : Bool) (content c : List Char)
    (limit : Nat) (h : readFileWithLimit oo so content limit = .ok c) :
    c = content := by
  unfold readFileWithLimit at h
  split_ifs at h
  all_goals simp_all

/-- C6: `checkFlags` returns exactly "Nezha was detected" if and only if
the content contains the literal, case-sensitive substring "nezha",
followed by "Contains Chinese characters" if and only if some rune of
the content lies in the Han script (the scan short-circuits at the first
such rune by definition of `containsChinese`); and a content with zero
matching rules yields the empty list, in which case the walk callback
records nothing in `fileFlags` for that file. -/
theorem checkFlags_spec :
    (∀ content : List Char,
        checkFlags content =
          (if containsList content ("nezha".toList) = true then
            ["Nezha was detected"] else []) ++
          (if content.any isHan = true then
            ["Contains Chinese characters"] else [])) ∧
    (∀ (parent : List String) (name : String) (content : List Char)
        (oo so : Bool) (st : WalkSt), checkFlags content = [] →
        (visitFile parent name content oo so st).fileFlags = st.fileFlags) := by
  constructor
  · intro content
    rw [← containsChinese_eq_any]
    simp only [checkFlags]
    cases h1 : containsList content ("nezha".toList) <;>
      cases h2 : containsChinese content <;> simp
  · intro parent name content oo so st hflags
    simp only [visitFile]
    split
    · cases hr : readFileWithLimit oo so content maxFileSize with
      | error e => rfl
      | ok c =>
        have hc : c = content := readFileWithLimit_ok_eq oo so content c _ hr
        subst hc
        simp [hflags]
    · rfl

/-- Witness for `checkFlags_spec`: a content matching no rule, whose
`.js` file leaves `fileFlags` untouched. -/
theorem checkFlags_spec_witness :
    checkFlags ("clean".toList) = [] ∧
    (visitFile ["v"] "a.js" ("clean".toList) true true emptyWalkSt).fileFlags =
      emptyWalkSt.fileFlags :=
  ⟨by decide,
   checkFlags_spec.2 ["v"] "a.js" ("clean".toList) true true emptyWalkSt
     (by decide)⟩

/-- A path reported by the tenant loop is a volume path whose analysis
produced a nonempty `fileFlags` or `folderFlags`. -/
theorem tenantLoop_mem (fs : FSList) (vd : List String)
    (l : List FSNode) (q : List String) (hq : q ∈ tenantLoop fs vd l) :
    ∃ name, q = vd ++ [name] ∧
      ¬((analyzeFiles fs (vd ++ [name]) 1).fileFlags.isEmpty = true ∧
        (analyzeFiles fs (vd ++ [name]) 1).folderFlags.isEmpty = true) := by
  induction l with
  | nil => simp [tenantLoop] at hq
  | cons v rest ih =>
    cases v with
    | file name content oo so => exact ih (by simpa [tenantLoop] using hq)
    | errEntry name => exact ih (by simpa [tenantLoop] using hq)
    | dir name children =>
      by_cases hc : (analyzeFiles fs (vd ++ [name]) 1).fileFlags.isEmpty &&
          (analyzeFiles fs (vd ++ [name]) 1).folderFlags.isEmpty
      · refine ih ?_
        simpa [tenantLoop, hc] using hq
      · rw [tenantLoop] at hq
        simp only [hc, if_false] at hq
        rcases List.mem_cons.mp hq with hq1 | hq2
        · refine ⟨name, hq1, ?_⟩
          intro hcontra
          exact hc (by simp [hcontra.1, hcontra.2])
        · exact ih hq2

/-- C7: a traversal error on any entry of a tenant's walk makes the
whole invocation return `nil, nil, nil` — every partial tally,
percentage, file flag and folder flag is discarded, at every admissible
depth — and `main` then sees empty `fileFlags` and `folderFlags` for
that tenant, so the tenant gets no report; the error is printed, not
propagated (the function still returns normally). -/
theorem walk_error_tenant_dropped (fs : FSList) (volumesDir : List String)
    (name : String) (d : Nat)
    (hw : walkPath fs (volumesDir ++ [name]) = .error ()) :
    analyzeFiles fs (volumesDir ++ [name]) d = emptyResult ∧
    (volumesDir ++ [name]) ∉ mainModel fs volumesDir := by
  have hempty : ∀ d' : Nat, analyzeFiles fs (volumesDir ++ [name]) d' = emptyResult := by
    intro d'
    rw [analyzeFiles_rec]
    by_cases h : maxDepth < d'
    · simp [h]
    · simp [h, hw]
  refine ⟨hempty d, ?_⟩
  intro hmem
  unfold mainModel at hmem
  rcases hfind : findNode fs volumesDir with _ | node
  · rw [hfind] at hmem
    simp at hmem
  · rw [hfind] at hmem
    cases node with
    | file n c o s => simp at hmem
    | errEntry n => simp at hmem
    | dir n children =>
      obtain ⟨name', heq, hne⟩ := tenantLoop_mem fs volumesDir children.toList _ hmem
      have hname : name = name' := by
        have h := List.append_inj_right heq (by rfl)
        simpa using h
      subst hname
      exact hne (by rw [hempty 1]; exact ⟨rfl, rfl⟩)

/-- Witness for `walk_error_tenant_dropped`: the tenant `t1` whose
subtree contains an entry the traversal fails on. -/
theorem walk_error_tenant_dropped_witness :
    walkPath brokenFS (["vols"] ++ ["t1"]) = .error () ∧
    analyzeFiles brokenFS (["vols"] ++ ["t1"]) 1 = emptyResult ∧
    (["vols"] ++ ["t1"]) ∉ mainModel brokenFS ["vols"] :=
  ⟨by rfl,
   (walk_error_tenant_dropped brokenFS ["vols"] "t1" 1 (by rfl)).1,
   (walk_error_tenant_dropped brokenFS ["vols"] "t1" 1 (by rfl)).2⟩

/-- C9: the flag evaluator is a pure, deterministic function of the
content alone — two invocations on identical content return identical
flag lists, element for element and in identical order; `checkFlags`
takes no other input, so no other state can influence the result. -/
theorem checkFlags_pure (c₁ c₂ : List Char) (h : c₁ = c₂) :
    checkFlags c₁ = checkFlags c₂ :=
  congrArg checkFlags h

/-- Witness for `checkFlags_pure` at a concrete content. -/
theorem checkFlags_pure_witness :
    ("nezha".toList = "nezha".toList) ∧
    checkFlags ("nezha".toList) = checkFlags ("nezha".toList) :=
  ⟨rfl, checkFlags_pure ("nezha".toList) ("nezha".toList) rfl⟩

/-- C10: `readFileWithLimit` never truncates: for every file and limit
it either returns the file's complete content — exactly when the open
succeeds, the stat succeeds and the stat size is within the limit — or
it returns an error; a file over the limit yields an error, never a
prefix of its bytes. -/
theorem readFileWithLimit_complete (oo so : Bool) (content : List Char)
    (limit : Nat) :
    (readFileWithLimit oo so content limit = .ok content ∧
      oo = true ∧ so = true ∧ utf8Len content ≤ limit) ∨
    (readFileWithLimit oo so content limit = .error () ∧
      (oo = false ∨ so = false ∨ limit < utf8Len content)) := by
  unfold readFileWithLimit
  cases oo with
  | false => right; simp
  | true =>
    cases so with
    | false => right; simp
    | true =>
      by_cases h : utf8Len content > limit
      · right; simp [h]
      · left; simp [h]; omega

end GScan
